import Mathlib

/-!
Shallow embedding of `src/packages/metadata-common/src/MetadataEditor.tsx`
(the Elyra metadata editor widget) and proofs about its behaviour.

Modelling conventions:
* A JavaScript field value is `Value`: `undefined`, `null`, a string, or an
  array of strings (tag lists / code lines are string arrays in this module).
* A JavaScript object used as a string-keyed map is an association list
  `List (String × Value)`; reading an absent key yields `Value.undef`,
  exactly like JS property access.
* JS truthiness is `Value.truthy`.
* Operations that would throw a `TypeError` in JS (reading a property of
  `undefined`, calling `includes` on an `undefined` field, calling
  `toLowerCase` on a non-string) return `none` in the model.
-/

namespace MetadataEditor

/-- A JavaScript value as it occurs in a metadata record of this module:
`undefined`, `null`, a string, or an array of strings. -/
inductive Value where
  | undef
  | null
  | str (s : String)
  | arr (xs : List String)
deriving DecidableEq

/-- JavaScript truthiness: `undefined`, `null` and `""` are falsy; every
non-empty string and every array (including the empty array) is truthy. -/
def Value.truthy : Value → Bool
  | .undef => false
  | .null => false
  | .str s => !s.isEmpty
  | .arr _ => true

/-- Reading `obj[k]` on a JS object: yields `undefined` when `k` is absent. -/
def jsGet (m : List (String × Value)) (k : String) : Value :=
  ((m.find? (fun p => p.1 == k)).map Prod.snd).getD Value.undef

/-- `obj[k] = v`: overwrite the first binding of `k` in place, or append a
new binding when `k` is absent (JS objects keep insertion order). -/
def jsSet (m : List (String × Value)) (k : String) (v : Value) :
    List (String × Value) :=
  match m with
  | [] => [(k, v)]
  | (k', v') :: rest =>
    if k' = k then (k, v) :: rest else (k', v') :: jsSet rest k v

/-- `delete obj[k]`: remove every binding of `k`. -/
def jsDelete (m : List (String × Value)) (k : String) :
    List (String × Value) :=
  m.filter (fun p => p.1 != k)

/-- Whether the key `k` is present in the object at all. -/
def jsHasKey (m : List (String × Value)) (k : String) : Bool :=
  m.any (fun p => p.1 == k)

/-- `Array.isArray(v)`. -/
def Value.isArray : Value → Bool
  | .arr _ => true
  | _ => false

/-- `v.length` of an array value (`0` for non-arrays; only consulted after an
`isArray` guard, mirroring the source). -/
def Value.arrLen : Value → Nat
  | .arr xs => xs.length
  | _ => 0

/-- `v[0]` of an array value. -/
def Value.arrHead : Value → Option String
  | .arr xs => xs.head?
  | _ => none

/-- `MetadataEditor.isValueEmpty`, transcribed disjunct by disjunct:
```
schemaValue === undefined || schemaValue === null || schemaValue === '' ||
(Array.isArray(schemaValue) && schemaValue.length === 0) ||
(Array.isArray(schemaValue) && schemaValue.length === 1 && schemaValue[0] === '') ||
schemaValue === '(No selection)'
``` -/
def isValueEmpty (schemaValue : Value) : Bool :=
  schemaValue == Value.undef ||
  schemaValue == Value.null ||
  schemaValue == Value.str "" ||
  (schemaValue.isArray && schemaValue.arrLen == 0) ||
  (schemaValue.isArray && schemaValue.arrLen == 1 &&
    schemaValue.arrHead == some "") ||
  schemaValue == Value.str "(No selection)"

/-- C1: the emptiness predicate used by validation holds exactly on
`undefined`, `null`, `""`, `[]`, `[""]` and the literal string
`"(No selection)"`, and on no other input. -/
theorem C1_isValueEmpty_characterization (v : Value) :
    isValueEmpty v = true ↔
      v = Value.undef ∨ v = Value.null ∨ v = Value.str "" ∨
      v = Value.arr [] ∨ v = Value.arr [""] ∨
      v = Value.str "(No selection)" := by
  cases v with
  | undef => simp [isValueEmpty]
  | null => simp [isValueEmpty]
  | str s =>
    simp [isValueEmpty, Value.isArray, Value.arrLen, Value.arrHead]
  | arr xs =>
    rcases xs with _ | ⟨x, _ | ⟨y, t⟩⟩ <;>
      simp [isValueEmpty, Value.isArray, Value.arrLen, Value.arrHead]

/-- The `uihints` object attached to a schema field. Absent sub-properties are
`none`/`false` (JS `undefined`, falsy). `error` is the transient validation
flag written by `hasInvalidFields`. -/
structure UiHints where
  category : Option String := none
  field_type : Option String := none
  secure : Bool := false
  placeholder : Option String := none
  default_choices : Option (List String) := none
  error : Bool := false
deriving DecidableEq

/-- One field definition of the loaded schema
(`schema.properties.metadata.properties[fieldName]`). `uihints` is optional:
the source sometimes reads it before `renderField` has installed it. -/
structure SchemaField where
  title : Option String := none
  description : Option String := none
  default : Option Value := none
  enum : Option (List String) := none
  uihints : Option UiHints := none
deriving DecidableEq

/-- Reading `this.schema[k]`: `none` models JS `undefined`. -/
def schemaGet (s : List (String × SchemaField)) (k : String) :
    Option SchemaField :=
  (s.find? (fun p => p.1 == k)).map Prod.snd

/-- Writing `this.schema[k] = f` (overwrite in place, append when absent). -/
def schemaSet (s : List (String × SchemaField)) (k : String)
    (f : SchemaField) : List (String × SchemaField) :=
  match s with
  | [] => [(k, f)]
  | (k', f') :: rest =>
    if k' = k then (k, f) :: rest else (k', f') :: schemaSet rest k f

/-- One record returned by `MetadataService.getMetadata(namespace)`. -/
structure MetadataRecord where
  name : String
  display_name : String
  metadata : List (String × Value)
deriving DecidableEq

/-- The mutable fields of the `MetadataEditor` widget that the modelled
operations read or write.

* `name` is `props.name` (`undefined` for a brand-new record).
* `requiredFields` is `schema.properties.metadata.required` and stays `none`
  (JS `undefined`) when the schema declares no `required` list.
* `clearDirty` is the `IDisposable` handle from `status.setDirty()`; the host
  is modelled by handing out distinct handles from the counter `nextHandle`,
  so "no new handle was requested" is observable.
* `currentMetaIdx` records which entry of `allMetadata` the alias
  `this.metadata` points at after initialization seeds the editor from an
  existing record (`this.metadata = metadata['metadata']`); `none` for a
  new record. Note that `this.metadata` aliases the record's inner
  `metadata` sub-object, not the record itself, which is why the
  `otherMetadata !== this.metadata` guard in `getDefaultChoices` never
  fires (see `choicesLoop`).
* `editorLanguage` records the language name last pushed to the embedded
  code editor's mime-type (the external `mimeTypeService` collaborator is
  modelled as recording its argument). -/
structure EditorState where
  schemaName : String
  namespace_ : String := ""
  name : Option String := none
  code : Option (List String) := none
  displayName : String := ""
  schemaDisplayName : String := ""
  schema : List (String × SchemaField) := []
  requiredFields : Option (List String) := none
  schemaPropertiesByCategory : List (String × List String) := []
  allMetadata : List MetadataRecord := []
  metadata : List (String × Value) := []
  currentMetaIdx : Option Nat := none
  allTags : List String := []
  dirty : Bool := false
  clearDirty : Option Nat := none
  nextHandle : Nat := 0
  invalidForm : Bool := false
  titleLabel : String := ""
  titleClassName : String := ""
  editorLanguage : Option String := none
deriving DecidableEq

/-! ### Dirty-state handling -/

/-- The CSS class appended to the widget title while dirty. -/
def DIRTY_CLASS : String := "jp-mod-dirty"

/-- Helper for `jsIncludes`: does `pat` occur in the character list? -/
def strIncludesAux (pat : List Char) : List Char → Bool
  | [] => pat.isPrefixOf ([] : List Char)
  | c :: cs => pat.isPrefixOf (c :: cs) || strIncludesAux pat cs

/-- `s.includes(pat)` of JavaScript strings. -/
def jsIncludes (s pat : String) : Bool :=
  strIncludesAux pat.data s.data

/-- Helper for `jsReplaceFirst`: replace the leftmost occurrence of `pat`. -/
def replaceFirstAux (pat rep : List Char) : List Char → List Char
  | [] => []
  | c :: cs =>
    if pat.isPrefixOf (c :: cs) then rep ++ (c :: cs).drop pat.length
    else c :: replaceFirstAux pat rep cs

/-- `s.replace(pat, rep)` with a string pattern: JavaScript replaces only the
first occurrence. -/
def jsReplaceFirst (s pat rep : String) : String :=
  String.mk (replaceFirstAux pat.data rep.data s.data)

/-- `MetadataEditor.handleDirtyState(dirty)`:
sets `this.dirty`, requests/disposes the host dirty handle, and
appends/strips `DIRTY_CLASS` on the title class name. -/
def handleDirtyState (st : EditorState) (dirty : Bool) : EditorState :=
  let st1 := { st with dirty := dirty }
  let st2 :=
    if st1.dirty && st1.clearDirty.isNone then
      { st1 with clearDirty := some st1.nextHandle,
                 nextHandle := st1.nextHandle + 1 }
    else if !st1.dirty && st1.clearDirty.isSome then
      { st1 with clearDirty := none }
    else st1
  if st2.dirty && !(jsIncludes st2.titleClassName DIRTY_CLASS) then
    { st2 with titleClassName := st2.titleClassName ++ DIRTY_CLASS }
  else if !st2.dirty then
    { st2 with titleClassName := jsReplaceFirst st2.titleClassName DIRTY_CLASS "" }
  else st2

/-! ### Validation -/

/-- `this.requiredFields.includes(f)`: faults (`none`) when `requiredFields`
is JS `undefined`. -/
def reqIncludes (requiredFields : Option (List String)) (f : String) :
    Option Bool :=
  match requiredFields with
  | none => none
  | some l => some (l.contains f)

/-- `this.schema[field].uihints.error = b`: faults when `uihints` is
`undefined`. -/
def writeError (sf : SchemaField) (b : Bool) : Option SchemaField :=
  match sf.uihints with
  | none => none
  | some u => some { sf with uihints := some { u with error := b } }

/-- `this.metadata[schemaField] || this.schema[schemaField].default`: the
stored value when truthy, otherwise the schema default (JS `undefined` when
the schema declares none). -/
def fieldValue (metadata : List (String × Value)) (schemaField : String)
    (sf : SchemaField) : Value :=
  let v := jsGet metadata schemaField
  if v.truthy then v else sf.default.getD Value.undef

/-- The `for (const schemaField in this.schema)` loop of `hasInvalidFields`,
threading the `invalidForm` accumulator and rebuilding the schema with the
per-field `uihints.error` writes. Faults when `requiredFields` is
`undefined` (`.includes` throws) or a field has no `uihints` object
(the `error` write throws). -/
def hasInvalidFieldsLoop (requiredFields : Option (List String))
    (metadata : List (String × Value)) :
    Bool → List (String × SchemaField) →
    Option (Bool × List (String × SchemaField))
  | invalid, [] => some (invalid, [])
  | invalid, (f, sf) :: rest =>
    match reqIncludes requiredFields f with
    | none => none
    | some isReq =>
      if isReq && isValueEmpty (fieldValue metadata f sf) then
        match writeError sf true with
        | none => none
        | some sf' =>
          match hasInvalidFieldsLoop requiredFields metadata true rest with
          | none => none
          | some (inv, rest') => some (inv, (f, sf') :: rest')
      else
        match writeError sf false with
        | none => none
        | some sf' =>
          match hasInvalidFieldsLoop requiredFields metadata invalid rest with
          | none => none
          | some (inv, rest') => some (inv, (f, sf') :: rest')

/-- `MetadataEditor.hasInvalidFields()`: resets `invalidForm`, marks it when
the display name is empty, then walks every schema field writing the
per-field error flags. Returns the boolean result together with the mutated
state, or `none` when the loop faults. -/
def hasInvalidFields (st : EditorState) : Option (Bool × EditorState) :=
  match hasInvalidFieldsLoop st.requiredFields st.metadata
      (st.displayName == "") st.schema with
  | none => none
  | some (inv, schema') =>
    some (inv, { st with invalidForm := inv, schema := schema' })

/-! ### Save controller -/

/-- The JSON payload `{ schema_name, display_name, metadata }` built by
`saveMetadata`. -/
structure Payload where
  schema_name : String
  display_name : String
  metadata : List (String × Value)
deriving DecidableEq

/-- The remote-service interaction performed by one `saveMetadata()` call. -/
inductive SaveAction where
  | abort
  | post (nspace : String) (payload : Payload)
  | put (nspace : String) (recName : String) (payload : Payload)
deriving DecidableEq

/-- JS falsiness of `this.name` (`undefined` or the empty string). -/
def jsNameFalsy : Option String → Bool
  | none => true
  | some s => s.isEmpty

/-- `MetadataEditor.saveMetadata()`: build the payload, validate, and either
abort (re-render with field errors), `postMetadata` (no existing name) or
`putMetadata` (existing name). Faults when validation faults. -/
def saveMetadata (st : EditorState) : Option (EditorState × SaveAction) :=
  let newMetadata : Payload :=
    { schema_name := st.schemaName, display_name := st.displayName,
      metadata := st.metadata }
  match hasInvalidFields st with
  | none => none
  | some (invalid, st') =>
    if invalid then some (st', SaveAction.abort)
    else if jsNameFalsy st.name then
      some (st', SaveAction.post st.namespace_ newMetadata)
    else
      some (st', SaveAction.put st.namespace_ (st.name.getD "") newMetadata)

/-! ### Input handlers -/

/-- `MetadataEditor.handleTextInputChange(event, schemaField)` with the new
input text `value`. `display_name` always stores the raw value; otherwise a
falsy value on a non-required field deletes the key, else the value is
stored. Faults when the falsy branch consults an `undefined`
`requiredFields`. -/
def handleTextInputChange (st : EditorState) (schemaField value : String) :
    Option EditorState :=
  let st1 := handleDirtyState st true
  if schemaField == "display_name" then
    some { st1 with displayName := value }
  else if value.isEmpty then
    match st1.requiredFields with
    | none => none
    | some req =>
      if req.contains schemaField then
        some { st1 with metadata := jsSet st1.metadata schemaField (Value.str value) }
      else
        some { st1 with metadata := jsDelete st1.metadata schemaField }
  else
    some { st1 with metadata := jsSet st1.metadata schemaField (Value.str value) }

/-- `MetadataEditor.handleDropdownChange(schemaField, value)`: always stores
the selected value; a `language` change additionally pushes the new language
to the embedded editor's mime-type. -/
def handleDropdownChange (st : EditorState) (schemaField value : String) :
    EditorState :=
  let st1 := handleDirtyState st true
  let st2 := { st1 with metadata := jsSet st1.metadata schemaField (Value.str value) }
  if schemaField == "language" then { st2 with editorLanguage := some value }
  else st2

/-! ### Dropdown choices -/

/-- `s.toLowerCase()`, character by character (kernel-computable form of
`String.toLower`). -/
def jsToLower (s : String) : String :=
  String.mk (s.data.map Char.toLower)

/-- The `find(defaultChoices, choice => choice.toLowerCase() ===
other.toLowerCase())` test: is a case-insensitive match already present? -/
def hasCaseInsensitiveMatch (choices : List String) (v : String) : Bool :=
  choices.any (fun c => jsToLower c == jsToLower v)

/-- The `for (const otherMetadata of this.allMetadata)` loop of
`getDefaultChoices`. The source guards the body with
`otherMetadata !== this.metadata` (commented "Don't include the current
metadata"), but `otherMetadata` is a whole record `{name, display_name,
metadata}` while `this.metadata` was assigned the record's inner `metadata`
sub-object at initialization; a record is never reference-identical to its
own sub-object, so the guard is always true and no record is skipped —
the loop visits every fetched record, the edited one included. A truthy
non-string field value faults: `toLowerCase` throws inside the
de-duplication test (modelled as an immediate fault). -/
def choicesLoop (fieldName : String) :
    List String → List MetadataRecord → Option (List String)
  | acc, [] => some acc
  | acc, other :: rest =>
    match jsGet other.metadata fieldName with
    | Value.str s =>
      if s.isEmpty then choicesLoop fieldName acc rest
      else if hasCaseInsensitiveMatch acc s then
        choicesLoop fieldName acc rest
      else choicesLoop fieldName (acc ++ [s]) rest
    | Value.arr _ => none
    | _ => choicesLoop fieldName acc rest

/-- `MetadataEditor.getDefaultChoices(fieldName)`: the field's `enum` when
present (JS: every array, even empty, is truthy), otherwise a copy of
`uihints.default_choices` (empty when absent) extended with the values seen
for the field in the fetched records (all of them — see `choicesLoop` for
why the edited record is not actually excluded). Faults when the field is
missing from the schema or (on the non-enum path) has no `uihints`
object. -/
def getDefaultChoices (st : EditorState) (fieldName : String) :
    Option (List String) :=
  match schemaGet st.schema fieldName with
  | none => none
  | some sf =>
    match sf.enum with
    | some e => some e
    | none =>
      match sf.uihints with
      | none => none
      | some u =>
        choicesLoop fieldName (u.default_choices.getD []) st.allMetadata

/-! ### Field rendering -/

/-- The control produced by `renderField`, keeping the props the claims talk
about (required flag, error flag, bound value, choice list). -/
inductive RenderedField where
  | textInput (fieldName : String) (defaultValue : Value) (required : Bool)
      (secure : Bool) (error : Bool)
  | dropdown (fieldName : String) (required : Bool) (error : Bool)
      (choice : Value) (defaultChoices : List String) (allowCreate : Bool)
  | codeBlock (required : Bool) (error : Bool)
  | tagsBlock (selectedTags : Value) (tagsPool : List String)
  | nothing
deriving DecidableEq

/-- `MetadataEditor.renderField(fieldName)`: computes the required flag
(guarded: `this.requiredFields && this.requiredFields.includes(fieldName)`),
the fallback default, installs an empty `uihints` object on the schema when
missing, then dispatches on `uihints.field_type`. Faults when the field is
absent from the schema, or when the dropdown branch's choice computation
faults. -/
def renderField (st : EditorState) (fieldName : String) :
    Option (EditorState × RenderedField) :=
  match schemaGet st.schema fieldName with
  | none => none
  | some sf =>
    let required : Bool :=
      match st.requiredFields with
      | none => false
      | some req => req.contains fieldName
    let defaultValue : Value :=
      let d := sf.default.getD Value.undef
      if d.truthy then d else Value.str ""
    let installed := sf.uihints.isNone
    let u : UiHints := sf.uihints.getD {}
    let st1 :=
      if installed then
        { st with schema := schemaSet st.schema fieldName { sf with uihints := some u } }
      else st
    if u.field_type == some "textinput" || u.field_type == none then
      let bound := jsGet st1.metadata fieldName
      some (st1, RenderedField.textInput fieldName
        (if bound.truthy then bound else defaultValue) required u.secure u.error)
    else if u.field_type == some "dropdown" then
      match getDefaultChoices st1 fieldName with
      | none => none
      | some dcs =>
        some (st1, RenderedField.dropdown fieldName required u.error
          (jsGet st1.metadata fieldName) dcs
          (match sf.enum with | none => true | some _ => false))
    else if u.field_type == some "code" then
      some (st1, RenderedField.codeBlock required u.error)
    else if u.field_type == some "tags" then
      some (st1, RenderedField.tagsBlock (jsGet st1.metadata "tags") st1.allTags)
    else
      some (st1, RenderedField.nothing)

/-! ### Initialization -/

/-- The shape of one entry of `MetadataService.getSchema(namespace)` that
`initializeMetadata` consumes: `properties.metadata.properties` and
`properties.metadata.required` (absent ⇒ `none`). -/
structure FetchedSchema where
  name : String
  title : String
  metadataProperties : List (String × SchemaField)
  metadataRequired : Option (List String) := none
deriving DecidableEq

/-- Append `f` to the bucket `k` of the category index, creating the bucket
at the end when absent (JS object insertion order). -/
def categoryPush (m : List (String × List String)) (k f : String) :
    List (String × List String) :=
  match m with
  | [] => [(k, [f])]
  | (k', fs) :: rest =>
    if k' = k then (k', fs ++ [f]) :: rest
    else (k', fs) :: categoryPush rest k f

/-- The category-index loop of `initializeMetadata`: a field goes to its
`uihints.category` bucket when that is truthy, else to `_noCategory`. -/
def buildCategories :
    List (String × List String) → List (String × SchemaField) →
    List (String × List String)
  | acc, [] => acc
  | acc, (f, sf) :: rest =>
    let category : Option String :=
      match sf.uihints with
      | none => none
      | some u =>
        match u.category with
        | none => none
        | some c => if c.isEmpty then none else some c
    match category with
    | none => buildCategories (categoryPush acc "_noCategory" f) rest
    | some c => buildCategories (categoryPush acc c f) rest

/-- The schema half of `initializeMetadata`: find the first fetched schema
whose name matches, install its field definitions, title and `required` list
(kept `none` when the schema has none), set the "New …" title for a
name-less editor, and build the category index. No match leaves the state
untouched. -/
def applySchemaMatch (st : EditorState) (schemas : List FetchedSchema) :
    EditorState :=
  match schemas.find? (fun s => s.name == st.schemaName) with
  | none => st
  | some s =>
    let st1 := { st with
      schema := s.metadataProperties,
      schemaDisplayName := s.title,
      requiredFields := s.metadataRequired }
    let st2 :=
      if jsNameFalsy st1.name then
        { st1 with titleLabel := "New " ++ s.title }
      else st1
    { st2 with schemaPropertiesByCategory :=
        buildCategories [("_noCategory", [])] s.metadataProperties }

/-- `for...of` iteration of a truthy JS value: an array yields its elements,
a (non-empty) string yields its characters. -/
def Value.iterStrings : Value → List String
  | Value.arr xs => xs
  | Value.str s => s.data.map (fun c => String.mk [c])
  | _ => []

/-- The `if (!this.allTags.includes(tag)) this.allTags.push(tag)` loop. -/
def addNewTags : List String → List String → List String
  | acc, [] => acc
  | acc, t :: ts =>
    if acc.contains t then addNewTags acc ts
    else addNewTags (acc ++ [t]) ts

/-- The `else { metadata.metadata.tags = [] }` write: a record whose `tags`
value is falsy gets it initialized to the empty array; a truthy value is
kept. -/
def tagsInitialized (r : MetadataRecord) : MetadataRecord :=
  if (jsGet r.metadata "tags").truthy then r
  else { r with metadata := jsSet r.metadata "tags" (Value.arr []) }

/-- The state effect of visiting the record at index `i` in the record loop:
a truthy `tags` value contributes its tags to `allTags` (each at most once);
the record whose name matches `nm` seeds `this.metadata` (by reference,
tracked in `currentMetaIdx`), the display name and the title label —
reading the record after its possible tags initialization, as the source
does. -/
def recordVisit (nm : String) (i : Nat) (st : EditorState)
    (r : MetadataRecord) : EditorState :=
  let tagsVal := jsGet r.metadata "tags"
  let st1 :=
    if tagsVal.truthy then
      { st with allTags := addNewTags st.allTags tagsVal.iterStrings }
    else st
  let r1 := tagsInitialized r
  if nm == r1.name then
    { st1 with metadata := r1.metadata, displayName := r1.display_name,
               titleLabel := r1.display_name, currentMetaIdx := some i }
  else st1

/-- The `for (const metadata of this.allMetadata)` loop run when the editor
has an existing name `nm`. Returns the final state together with the record
list as mutated by the loop (the in-place `tags = []` writes). -/
def recordLoop (nm : String) :
    EditorState → Nat → List MetadataRecord →
    EditorState × List MetadataRecord
  | st, _, [] => (st, [])
  | st, i, r :: rest =>
    let res := recordLoop nm (recordVisit nm i st r) (i + 1) rest
    (res.1, tagsInitialized r :: res.2)

/-- `MetadataEditor.initializeMetadata()`, with the two service responses
passed in: apply the schema match, store the fetched records, then — only
when `this.name` is truthy — run the record loop; otherwise just clear the
display name. -/
def initializeMetadata (st : EditorState) (schemas : List FetchedSchema)
    (fetched : List MetadataRecord) : EditorState :=
  let st1 := applySchemaMatch st schemas
  let st2 := { st1 with allMetadata := fetched }
  if jsNameFalsy st2.name then { st2 with displayName := "" }
  else
    let nm := st2.name.getD ""
    let res := recordLoop nm st2 0 st2.allMetadata
    { res.1 with allMetadata := res.2 }

/-! ### Basic lemmas about the JS-object operations -/

theorem jsGet_jsSet_self (m : List (String × Value)) (k : String) (v : Value) :
    jsGet (jsSet m k v) k = v := by
  induction m with
  | nil => simp [jsGet, jsSet]
  | cons p rest ih =>
    obtain ⟨k', v'⟩ := p
    by_cases h : k' = k
    · subst h; simp [jsSet, jsGet]
    · simp only [jsSet, if_neg h]
      simpa [jsGet, h] using ih

theorem jsGet_jsSet_ne (m : List (String × Value)) (k k' : String) (v : Value)
    (h : k' ≠ k) : jsGet (jsSet m k v) k' = jsGet m k' := by
  induction m with
  | nil => simp [jsGet, jsSet, Ne.symm h]
  | cons p rest ih =>
    obtain ⟨k₀, v₀⟩ := p
    by_cases hk : k₀ = k
    · subst hk
      simp [jsSet, jsGet, Ne.symm h, h]
    · simp only [jsSet, if_neg hk]
      by_cases hk' : k₀ = k'
      · subst hk'; simp [jsGet]
      · simpa [jsGet, hk'] using ih

theorem jsHasKey_jsSet_of_hasKey (m : List (String × Value)) (k k' : String)
    (v : Value) (h : jsHasKey m k' = true) :
    jsHasKey (jsSet m k v) k' = true := by
  induction m with
  | nil => simp [jsHasKey] at h
  | cons p rest ih =>
    obtain ⟨k₀, v₀⟩ := p
    by_cases hk : k₀ = k
    · subst hk
      by_cases hk' : k₀ = k'
      · subst hk'
        simp [jsSet, jsHasKey]
      · have h2 : jsHasKey rest k' = true := by
          simpa [jsHasKey, hk'] using h
        simp only [jsSet, if_pos rfl]
        simp only [jsHasKey, List.any_cons] at h2 ⊢
        simp [h2]
    · have h' : (k₀ == k') = true ∨ jsHasKey rest k' = true := by
        simpa [jsHasKey, Bool.or_eq_true_iff] using h
      simp only [jsSet, if_neg hk]
      simp only [jsHasKey, List.any_cons, Bool.or_eq_true_iff]
      rcases h' with h1 | h2
      · exact Or.inl h1
      · exact Or.inr (by simpa [jsHasKey] using ih h2)

theorem jsHasKey_jsDelete_self (m : List (String × Value)) (k : String) :
    jsHasKey (jsDelete m k) k = false := by
  induction m with
  | nil => rfl
  | cons p rest ih =>
    obtain ⟨k₀, v₀⟩ := p
    by_cases hk : k₀ = k
    · subst hk; simp_all [jsDelete, jsHasKey]
    · simp_all [jsDelete, jsHasKey, hk]

/-! ### Dirty-state lemmas -/

theorem mk_data_eq (s : String) : String.mk s.data = s := by
  cases s; rfl

theorem replaceFirstAux_of_not_includes (pat rep l : List Char)
    (h : strIncludesAux pat l = false) : replaceFirstAux pat rep l = l := by
  induction l with
  | nil => rfl
  | cons c cs ih =>
    simp only [strIncludesAux, Bool.or_eq_false_iff] at h
    simp only [replaceFirstAux, h.1]
    simp [ih h.2]

theorem jsReplaceFirst_of_not_includes (s pat rep : String)
    (h : jsIncludes s pat = false) : jsReplaceFirst s pat rep = s := by
  unfold jsIncludes at h
  unfold jsReplaceFirst
  rw [replaceFirstAux_of_not_includes _ _ _ h, mk_data_eq]

theorem handleDirtyState_metadata (st : EditorState) (b : Bool) :
    (handleDirtyState st b).metadata = st.metadata := by
  unfold handleDirtyState
  dsimp only
  repeat' split
  all_goals rfl

theorem handleDirtyState_requiredFields (st : EditorState) (b : Bool) :
    (handleDirtyState st b).requiredFields = st.requiredFields := by
  unfold handleDirtyState
  dsimp only
  repeat' split
  all_goals rfl

/-- C8: `handleDirtyState` is idempotent — marking an already-dirty editor
dirty changes nothing observable (dirty flag, host dirty handle, title
class), and marking an already-clean editor clean is likewise a no-op.
The hypotheses say the state is consistently Dirty (handle held, title class
applied) respectively consistently Clean (no handle, no title class). -/
theorem C8_handleDirtyState_idempotent (st : EditorState) :
    (st.dirty = true → st.clearDirty.isSome = true →
      jsIncludes st.titleClassName DIRTY_CLASS = true →
      handleDirtyState st true = st) ∧
    (st.dirty = false → st.clearDirty = none →
      jsIncludes st.titleClassName DIRTY_CLASS = false →
      handleDirtyState st false = st) := by
  constructor
  · intro h1 h2 h3
    rcases Option.isSome_iff_exists.mp h2 with ⟨x, hx⟩
    cases st
    simp_all [handleDirtyState]
  · intro h1 h2 h3
    cases st
    simp_all [handleDirtyState, jsReplaceFirst_of_not_includes _ _ _ h3]

/-- Concrete instantiation of C8 on a consistently dirty and a consistently
clean editor state. -/
theorem C8_witness :
    handleDirtyState
        { schemaName := "s", dirty := true, clearDirty := some 0,
          nextHandle := 1, titleClassName := "tabjp-mod-dirty" } true =
      { schemaName := "s", dirty := true, clearDirty := some 0,
        nextHandle := 1, titleClassName := "tabjp-mod-dirty" } ∧
    handleDirtyState
        { schemaName := "s", dirty := false, titleClassName := "tab" } false =
      { schemaName := "s", dirty := false, titleClassName := "tab" } :=
  ⟨(C8_handleDirtyState_idempotent _).1 (by decide) (by decide) (by decide),
   (C8_handleDirtyState_idempotent _).2 (by decide) (by decide) (by decide)⟩

/-! ### C10: dropdown changes always store -/

theorem handleDropdownChange_metadata (st : EditorState) (f v : String) :
    (handleDropdownChange st f v).metadata =
      jsSet st.metadata f (Value.str v) := by
  unfold handleDropdownChange
  dsimp only
  split <;> simp [handleDirtyState_metadata]

/-- C10: a dropdown change stores the selected value under the field's key
for every field and every value (including the `"(No selection)"` sentinel
and other falsy values), leaves every other key's value unchanged, and never
deletes a key from the record. -/
theorem C10_handleDropdownChange_always_stores (st : EditorState)
    (f v k : String) :
    jsGet (handleDropdownChange st f v).metadata f = Value.str v ∧
    (k ≠ f → jsGet (handleDropdownChange st f v).metadata k =
      jsGet st.metadata k) ∧
    (jsHasKey st.metadata k = true →
      jsHasKey (handleDropdownChange st f v).metadata k = true) := by
  rw [handleDropdownChange_metadata]
  exact ⟨jsGet_jsSet_self _ _ _,
    fun h => jsGet_jsSet_ne _ _ _ _ h,
    fun h => jsHasKey_jsSet_of_hasKey _ _ _ _ h⟩

/-- Concrete instantiation of C10: a non-required dropdown left at
`"(No selection)"` keeps that literal string, and other keys survive. -/
theorem C10_witness :
    jsGet (handleDropdownChange
        { schemaName := "s", metadata := [("other", Value.str "o")] }
        "opt" "(No selection)").metadata "opt" =
      Value.str "(No selection)" ∧
    jsGet (handleDropdownChange
        { schemaName := "s", metadata := [("other", Value.str "o")] }
        "opt" "(No selection)").metadata "other" =
      jsGet [("other", Value.str "o")] "other" ∧
    jsHasKey (handleDropdownChange
        { schemaName := "s", metadata := [("other", Value.str "o")] }
        "opt" "(No selection)").metadata "other" = true :=
  ⟨(C10_handleDropdownChange_always_stores _ "opt" "(No selection)" "other").1,
   (C10_handleDropdownChange_always_stores _ "opt" "(No selection)" "other").2.1
     (by decide),
   (C10_handleDropdownChange_always_stores _ "opt" "(No selection)" "other").2.2
     (by decide)⟩

/-! ### C4: text-input changes -/

/-- C4: a text-input change on `display_name` always stores the raw value,
even when empty; on any other field, a falsy new value on a non-required
field deletes the key entirely (the key is no longer present), while
otherwise (non-empty value, or required field) the value is stored under the
key. -/
theorem C4_handleTextInputChange (st : EditorState) (f v : String)
    (req : List String) (hreq : st.requiredFields = some req) :
    (handleTextInputChange st "display_name" v =
      some { handleDirtyState st true with displayName := v }) ∧
    (f ≠ "display_name" → v = "" → req.contains f = false →
      handleTextInputChange st f v =
        some { handleDirtyState st true with
               metadata := jsDelete st.metadata f } ∧
      ∀ st', handleTextInputChange st f v = some st' →
        jsHasKey st'.metadata f = false) ∧
    (f ≠ "display_name" → (v ≠ "" ∨ req.contains f = true) →
      handleTextInputChange st f v =
        some { handleDirtyState st true with
               metadata := jsSet st.metadata f (Value.str v) }) := by
  have hmd := handleDirtyState_metadata st true
  have hrf := handleDirtyState_requiredFields st true
  refine ⟨?_, ?_, ?_⟩
  · simp [handleTextInputChange]
  · intro hf hv hcontains
    subst hv
    have hc : ¬(req.contains f = true) := by
      rw [hcontains]; exact Bool.false_ne_true
    have heq : handleTextInputChange st f "" =
        some { handleDirtyState st true with
               metadata := jsDelete st.metadata f } := by
      simp only [handleTextInputChange]
      rw [if_neg (by simpa using hf)]
      have ht : ("" : String).isEmpty = true := rfl
      rw [if_pos ht, hrf, hreq]
      dsimp only
      rw [if_neg hc, hmd]
    refine ⟨heq, ?_⟩
    intro st' hst'
    rw [heq] at hst'
    injection hst' with h
    subst h
    exact jsHasKey_jsDelete_self st.metadata f
  · intro hf hv
    simp only [handleTextInputChange]
    rw [if_neg (by simpa using hf)]
    by_cases hv' : v = ""
    · subst hv'
      have ht : ("" : String).isEmpty = true := rfl
      rw [if_pos ht, hrf, hreq]
      dsimp only
      have hc : req.contains f = true := by
        rcases hv with hv | hv
        · exact absurd rfl hv
        · exact hv
      rw [if_pos hc, hmd]
    · have ht : v.isEmpty = false := by
        rw [Bool.eq_false_iff]
        simpa [String.isEmpty_iff] using hv'
      rw [if_neg (by simp [ht]), hmd]

/-- Concrete instantiation of C4: storing an empty display name, deleting a
non-required field on an empty value (the key disappears), and storing a
non-empty value. -/
theorem C4_witness :
    (handleTextInputChange
        { schemaName := "s", requiredFields := some ["a"],
          metadata := [("b", Value.str "old")] } "display_name" "" =
      some { handleDirtyState
          { schemaName := "s", requiredFields := some ["a"],
            metadata := [("b", Value.str "old")] } true with
          displayName := "" }) ∧
    (handleTextInputChange
        { schemaName := "s", requiredFields := some ["a"],
          metadata := [("b", Value.str "old")] } "b" "" =
      some { handleDirtyState
          { schemaName := "s", requiredFields := some ["a"],
            metadata := [("b", Value.str "old")] } true with
          metadata := jsDelete [("b", Value.str "old")] "b" }) ∧
    (handleTextInputChange
        { schemaName := "s", requiredFields := some ["a"],
          metadata := [("b", Value.str "old")] } "b" "new" =
      some { handleDirtyState
          { schemaName := "s", requiredFields := some ["a"],
            metadata := [("b", Value.str "old")] } true with
          metadata := jsSet [("b", Value.str "old")] "b" (Value.str "new") }) :=
  ⟨(C4_handleTextInputChange _ "b" "" ["a"] rfl).1,
   ((C4_handleTextInputChange _ "b" "" ["a"] rfl).2.1
      (by decide) rfl (by decide)).1,
   (C4_handleTextInputChange _ "b" "new" ["a"] rfl).2.2
      (by decide) (Or.inl (by decide))⟩

/-! ### C2: the value validation evaluates -/

/-- The value the amended C2 claim says validation evaluates:
`record[field] || schema[field].default` — the schema default is substituted
exactly when the stored value is falsy (`undefined`, `null`, or the empty
string); a present truthy value, including any array, is used as-is. -/
def amendedValue (metadata : List (String × Value)) (sf : SchemaField)
    (f : String) : Value :=
  match jsGet metadata f with
  | Value.undef => sf.default.getD Value.undef
  | Value.null => sf.default.getD Value.undef
  | Value.str s =>
    if s = "" then sf.default.getD Value.undef else Value.str s
  | Value.arr xs => Value.arr xs

/-- Overwrite the `uihints.error` flag (total form used to state results;
coincides with `writeError` whenever `uihints` is present). -/
def errorFlagged (sf : SchemaField) (b : Bool) : SchemaField :=
  { sf with uihints := sf.uihints.map (fun u => { u with error := b }) }

theorem fieldValue_eq_amendedValue (md : List (String × Value)) (f : String)
    (sf : SchemaField) : fieldValue md f sf = amendedValue md sf f := by
  unfold fieldValue amendedValue
  cases h : jsGet md f with
  | undef => simp [Value.truthy]
  | null => simp [Value.truthy]
  | str s =>
    by_cases hs : s = "" <;>
      simp [Value.truthy, hs, String.isEmpty_iff]
  | arr xs => simp [Value.truthy]

theorem hasInvalidFieldsLoop_spec (req : List String)
    (md : List (String × Value)) (inv : Bool)
    (fields : List (String × SchemaField))
    (h : ∀ p ∈ fields, (SchemaField.uihints p.2).isSome = true) :
    hasInvalidFieldsLoop (some req) md inv fields =
      some (inv || fields.any
          (fun p => req.contains p.1 && isValueEmpty (amendedValue md p.2 p.1)),
        fields.map (fun p => (p.1,
          errorFlagged p.2
            (req.contains p.1 && isValueEmpty (amendedValue md p.2 p.1))))) := by
  induction fields generalizing inv with
  | nil => simp [hasInvalidFieldsLoop]
  | cons p rest ih =>
    obtain ⟨f, sf⟩ := p
    have hsf : (SchemaField.uihints sf).isSome = true :=
      h (f, sf) (List.mem_cons_self _ _)
    rcases Option.isSome_iff_exists.mp hsf with ⟨u, hu⟩
    have hrest : ∀ p ∈ rest, (SchemaField.uihints p.2).isSome = true :=
      fun p hp => h p (List.mem_cons_of_mem _ hp)
    simp only [hasInvalidFieldsLoop, reqIncludes]
    rw [fieldValue_eq_amendedValue]
    by_cases hcond : (req.contains f && isValueEmpty (amendedValue md sf f)) = true
    · rw [if_pos hcond]
      simp only [writeError, hu, ih true hrest, List.any_cons, List.map_cons,
        hcond, Bool.true_or, Bool.or_true, errorFlagged, Option.map_some']
    · rw [if_neg hcond]
      have hcond' : (req.contains f && isValueEmpty (amendedValue md sf f)) = false :=
        Bool.eq_false_iff.mpr hcond
      simp only [writeError, hu, ih inv hrest, List.any_cons, List.map_cons,
        hcond', Bool.false_or, errorFlagged, Option.map_some']

/-- C2, amended: validation evaluates each field as
`record[field] || schema[field].default` (the default is substituted for any
falsy stored value — `undefined`, `null` or the empty string — and a truthy
stored value is used as-is); a required field whose evaluated value is empty
has its error flag set and makes the form invalid, every other field has its
error flag cleared; the form is additionally invalid when the display name
is empty. -/
theorem C2_amended_hasInvalidFields (st : EditorState) (req : List String)
    (hreq : st.requiredFields = some req)
    (h : ∀ p ∈ st.schema, (SchemaField.uihints p.2).isSome = true) :
    hasInvalidFields st =
      some ((st.displayName == "") || st.schema.any
          (fun p => req.contains p.1 && isValueEmpty (amendedValue st.metadata p.2 p.1)),
        { st with
          invalidForm := (st.displayName == "") || st.schema.any
            (fun p => req.contains p.1 && isValueEmpty (amendedValue st.metadata p.2 p.1)),
          schema := st.schema.map (fun p => (p.1,
            errorFlagged p.2
              (req.contains p.1 && isValueEmpty (amendedValue st.metadata p.2 p.1)))) }) := by
  unfold hasInvalidFields
  rw [hreq, hasInvalidFieldsLoop_spec req st.metadata (st.displayName == "") st.schema h]

/-- C2 counterexample: on the required field `"a"` with stored value `""`
and schema default `"d"`, the code evaluates the default (JS `||`), so
validation passes and the error flag is cleared — whereas the claim
(`record[field] ?? default`) says the stored empty string is used as-is,
which would flag the field and invalidate the form. -/
theorem C2_counterexample :
    fieldValue [("a", Value.str "")] "a"
        { default := some (Value.str "d"), uihints := some {} } =
      Value.str "d" ∧
    hasInvalidFields
        { schemaName := "s", displayName := "n",
          schema := [("a", { default := some (Value.str "d"),
                             uihints := some {} })],
          requiredFields := some ["a"],
          metadata := [("a", Value.str "")] } =
      some (false,
        { schemaName := "s", displayName := "n",
          schema := [("a", { default := some (Value.str "d"),
                             uihints := some { error := false } })],
          requiredFields := some ["a"],
          metadata := [("a", Value.str "")] }) := by
  decide

/-- Concrete instantiation of the amended C2 on a two-field schema: the
required field `"a"` (stored `""`, no default — evaluated value is empty) is
flagged and the form is invalid; the non-required field `"b"` has its flag
cleared. -/
theorem C2_witness :
    hasInvalidFields
        { schemaName := "s", displayName := "n",
          schema := [("a", { uihints := some {} }),
                     ("b", { uihints := some { error := true } })],
          requiredFields := some ["a"],
          metadata := [("a", Value.str "")] } =
      some ((("n" : String) == "") ||
          [(("a" : String), ({ uihints := some {} } : SchemaField)),
           ("b", { uihints := some { error := true } })].any
            (fun p => ["a"].contains p.1 &&
              isValueEmpty (amendedValue [("a", Value.str "")] p.2 p.1)),
        { schemaName := "s", displayName := "n",
          schema := [(("a" : String), ({ uihints := some {} } : SchemaField)),
                     ("b", { uihints := some { error := true } })].map
            (fun p => (p.1, errorFlagged p.2
              (["a"].contains p.1 &&
                isValueEmpty (amendedValue [("a", Value.str "")] p.2 p.1)))),
          requiredFields := some ["a"],
          metadata := [("a", Value.str "")],
          invalidForm := (("n" : String) == "") ||
            [(("a" : String), ({ uihints := some {} } : SchemaField)),
             ("b", { uihints := some { error := true } })].any
              (fun p => ["a"].contains p.1 &&
                isValueEmpty (amendedValue [("a", Value.str "")] p.2 p.1)) }) :=
  C2_amended_hasInvalidFields _ ["a"] rfl (by decide)

/-! ### C3: save routing -/

/-- C3: when validation returns, the save either aborts (validation failed:
no `postMetadata`, no `putMetadata`, the state re-renders with the field
errors validation wrote), or — on success — creates via `postMetadata` when
the editor has no existing name, respectively updates via `putMetadata` with
the existing name. -/
theorem C3_saveMetadata_routing (st st' : EditorState) (invalid : Bool)
    (h : hasInvalidFields st = some (invalid, st')) :
    saveMetadata st =
      some (st',
        if invalid then SaveAction.abort
        else if jsNameFalsy st.name then
          SaveAction.post st.namespace_
            { schema_name := st.schemaName, display_name := st.displayName,
              metadata := st.metadata }
        else
          SaveAction.put st.namespace_ (st.name.getD "")
            { schema_name := st.schemaName, display_name := st.displayName,
              metadata := st.metadata }) := by
  unfold saveMetadata
  rw [h]
  dsimp only
  cases invalid
  · by_cases hn : jsNameFalsy st.name <;> simp [hn]
  · simp

/-- Concrete instantiation of C3: a valid form on an editor with existing
name `"ex"` routes to `putMetadata` with that name. -/
theorem C3_witness :
    saveMetadata
        { schemaName := "sn", namespace_ := "ns", name := some "ex",
          displayName := "Nm", schema := [("a", { uihints := some {} })],
          requiredFields := some ([] : List String), metadata := [] } =
      some ({ schemaName := "sn", namespace_ := "ns", name := some "ex",
              displayName := "Nm",
              schema := [("a", { uihints := some { error := false } })],
              requiredFields := some ([] : List String), metadata := [],
              invalidForm := false },
        if false then SaveAction.abort
        else if jsNameFalsy (some "ex") then
          SaveAction.post "ns"
            { schema_name := "sn", display_name := "Nm", metadata := [] }
        else
          SaveAction.put "ns" ((some "ex").getD "")
            { schema_name := "sn", display_name := "Nm", metadata := [] }) :=
  C3_saveMetadata_routing _ _ false (by decide)

/-! ### C9: validation faults without uihints; renderField installs them -/

theorem schemaGet_schemaSet_self (s : List (String × SchemaField))
    (k : String) (f : SchemaField) :
    schemaGet (schemaSet s k f) k = some f := by
  induction s with
  | nil => simp [schemaGet, schemaSet]
  | cons p rest ih =>
    obtain ⟨k', f'⟩ := p
    by_cases h : k' = k
    · subst h; simp [schemaSet, schemaGet]
    · simp only [schemaSet, if_neg h]
      simpa [schemaGet, h] using ih

theorem hasInvalidFieldsLoop_isSome (req : List String)
    (md : List (String × Value)) (inv : Bool)
    (fields : List (String × SchemaField)) :
    (hasInvalidFieldsLoop (some req) md inv fields).isSome =
      fields.all (fun p => (SchemaField.uihints p.2).isSome) := by
  induction fields generalizing inv with
  | nil => simp [hasInvalidFieldsLoop]
  | cons p rest ih =>
    obtain ⟨f, sf⟩ := p
    simp only [hasInvalidFieldsLoop, reqIncludes]
    by_cases hcond : (req.contains f && isValueEmpty (fieldValue md f sf)) = true
    · rw [if_pos hcond]
      cases hu : sf.uihints with
      | none => simp [writeError, List.all_cons, hu]
      | some u =>
        simp only [writeError]
        cases hloop : hasInvalidFieldsLoop (some req) md true rest with
        | none =>
          have := ih true
          rw [hloop] at this
          simp [List.all_cons, hu, ← this]
        | some pr =>
          obtain ⟨inv', rest'⟩ := pr
          have := ih true
          rw [hloop] at this
          simp [List.all_cons, hu, ← this]
    · rw [if_neg hcond]
      cases hu : sf.uihints with
      | none => simp [writeError, List.all_cons, hu]
      | some u =>
        simp only [writeError]
        cases hloop : hasInvalidFieldsLoop (some req) md inv rest with
        | none =>
          have := ih inv
          rw [hloop] at this
          simp [List.all_cons, hu, ← this]
        | some pr =>
          obtain ⟨inv', rest'⟩ := pr
          have := ih inv
          rw [hloop] at this
          simp [List.all_cons, hu, ← this]

/-- C9: validation writes `uihints.error` for every schema field on both the
error and the no-error branch, so (with a present `requiredFields` list) it
is fault-free exactly when every schema field carries a `uihints` object;
and `renderField` installs an empty `uihints` object on the schema for a
field that lacks one, after which that field is safe to validate. -/
theorem C9_validation_needs_uihints (st : EditorState) (req : List String)
    (f : String) (sf : SchemaField) :
    (st.requiredFields = some req →
      (hasInvalidFields st).isSome =
        st.schema.all (fun p => (SchemaField.uihints p.2).isSome)) ∧
    (schemaGet st.schema f = some sf → sf.uihints = none →
      ∀ st' r, renderField st f = some (st', r) →
        schemaGet st'.schema f = some { sf with uihints := some {} }) := by
  constructor
  · intro hreq
    unfold hasInvalidFields
    rw [hreq]
    cases hloop : hasInvalidFieldsLoop (some req) st.metadata
        (st.displayName == "") st.schema with
    | none =>
      have := hasInvalidFieldsLoop_isSome req st.metadata
        (st.displayName == "") st.schema
      rw [hloop] at this
      simpa using this
    | some pr =>
      obtain ⟨inv, schema'⟩ := pr
      have := hasInvalidFieldsLoop_isSome req st.metadata
        (st.displayName == "") st.schema
      rw [hloop] at this
      simpa using this
  · intro hget hu st' r h
    unfold renderField at h
    rw [hget] at h
    simp [hu] at h
    obtain ⟨h1, h2⟩ := h
    subst h1
    simpa using schemaGet_schemaSet_self st.schema f { sf with uihints := some {} }

/-- Concrete instantiation of C9: a one-field schema whose field lacks
`uihints` makes validation fault, and rendering that field installs the
empty `uihints` object. -/
theorem C9_witness :
    (hasInvalidFields
        { schemaName := "s", displayName := "n",
          requiredFields := some ([] : List String),
          schema := [("a", {})] }).isSome =
      ([(("a" : String), ({} : SchemaField))].all
        (fun p => (SchemaField.uihints p.2).isSome)) ∧
    schemaGet
        ({ schemaName := "s", displayName := "n",
           requiredFields := some ([] : List String),
           schema := [("a", { uihints := some {} })] } : EditorState).schema
        "a" =
      some { ({} : SchemaField) with uihints := some {} } :=
  ⟨(C9_validation_needs_uihints
      { schemaName := "s", displayName := "n",
        requiredFields := some ([] : List String),
        schema := [("a", {})] } [] "a" {}).1 rfl,
   (C9_validation_needs_uihints
      { schemaName := "s", displayName := "n",
        requiredFields := some ([] : List String),
        schema := [("a", {})] } [] "a" {}).2 (by decide) rfl
     { schemaName := "s", displayName := "n",
       requiredFields := some ([] : List String),
       schema := [("a", { uihints := some {} })] }
     (RenderedField.textInput "a" (Value.str "") false false false)
     (by decide)⟩

/-! ### C5: dropdown choice lists -/

/-- The C5 failing input: the editor is open on the EXISTING record `"r1"`
(`this.metadata` aliases its inner metadata, index 0), whose `"lang"` value
`"z"` is truthy and case-insensitively absent from
`default_choices = ["x"]`; the other record in the namespace holds
`"y"`. -/
def stC5 : EditorState :=
  { schemaName := "s", name := some "r1", displayName := "R1",
    schema := [("lang",
      { uihints := some { default_choices := some ["x"] } })],
    allMetadata := [
      { name := "r1", display_name := "R1",
        metadata := [("lang", Value.str "z")] },
      { name := "r2", display_name := "R2",
        metadata := [("lang", Value.str "y")] }],
    metadata := [("lang", Value.str "z")],
    currentMetaIdx := some 0 }

/-- C5: the choice list on the failing input `stC5` is `["x", "z", "y"]` —
it contains `"z"`, the value of the record currently being edited, and not
the `["x", "y"]` the claim (and the source's own comment "Don't include the
current metadata") prescribes. The guard `otherMetadata !== this.metadata`
compares the record object to the inner metadata sub-object, which are
never reference-identical, so the intended exclusion never happens. -/
theorem C5_edited_record_included :
    getDefaultChoices stC5 "lang" = some ["x", "z", "y"] ∧
    getDefaultChoices stC5 "lang" ≠ some ["x", "y"] ∧
    jsGet stC5.metadata "lang" = Value.str "z" := by
  decide

/-! ### C6: a schema without a required list -/

theorem recordVisit_requiredFields (nm : String) (i : Nat)
    (st : EditorState) (r : MetadataRecord) :
    (recordVisit nm i st r).requiredFields = st.requiredFields := by
  unfold recordVisit
  dsimp only
  repeat' split
  all_goals rfl

theorem recordLoop_fst_requiredFields (nm : String) (st : EditorState)
    (i : Nat) (rs : List MetadataRecord) :
    (recordLoop nm st i rs).1.requiredFields = st.requiredFields := by
  induction rs generalizing st i with
  | nil => rfl
  | cons r rest ih =>
    show (recordLoop nm (recordVisit nm i st r) (i + 1) rest).1.requiredFields
      = st.requiredFields
    rw [ih]
    exact recordVisit_requiredFields nm i st r

theorem applySchemaMatch_requiredFields_of_find (st : EditorState)
    (schemas : List FetchedSchema) (s : FetchedSchema)
    (hfind : schemas.find? (fun x => x.name == st.schemaName) = some s) :
    (applySchemaMatch st schemas).requiredFields = s.metadataRequired := by
  unfold applySchemaMatch
  rw [hfind]
  dsimp only
  split <;> rfl

/-- The concrete C6 scenario: a fetched schema with one field and no
`required` list, loaded into a fresh editor. -/
def schC6 : FetchedSchema :=
  { name := "s", title := "S",
    metadataProperties := [("a", { uihints := some {} })],
    metadataRequired := none }

/-- C6 counterexample: after loading a schema whose metadata sub-schema has
no `required` list, `requiredFields` is JS `undefined` — not the empty set —
and validation and the falsy-deletion path of a text edit fault
(`undefined.includes` throws) instead of behaving as if no field were
required. -/
theorem C6_counterexample :
    (initializeMetadata { schemaName := "s", displayName := "n" }
        [schC6] []).requiredFields ≠ some [] ∧
    hasInvalidFields (initializeMetadata
        { schemaName := "s", displayName := "n" } [schC6] []) = none ∧
    handleTextInputChange (initializeMetadata
        { schemaName := "s", displayName := "n" } [schC6] []) "a" "" =
      none := by
  decide

/-- C6, amended: loading a schema without a `required` list leaves
`requiredFields` as JS `undefined` (`none`), not the empty set. Field
rendering guards its access (`this.requiredFields && ...`) and treats every
field as not required, but validation faults on any non-empty schema, and a
text edit faults on the falsy-deletion path, because both call `.includes`
on `undefined`. -/
theorem C6_amended_requiredFields (st : EditorState)
    (schemas : List FetchedSchema) (recs : List MetadataRecord)
    (s : FetchedSchema) (f v : String) (sf : SchemaField) (u : UiHints)
    (rest : List (String × SchemaField)) :
    (schemas.find? (fun x => x.name == st.schemaName) = some s →
      s.metadataRequired = none →
      (initializeMetadata st schemas recs).requiredFields = none) ∧
    (st.requiredFields = none → st.schema = (f, sf) :: rest →
      hasInvalidFields st = none) ∧
    (st.requiredFields = none → f ≠ "display_name" → v = "" →
      handleTextInputChange st f v = none) ∧
    (st.requiredFields = none → schemaGet st.schema f = some sf →
      sf.uihints = some u →
      (u.field_type = none ∨ u.field_type = some "textinput") →
      ∃ dv, renderField st f =
        some (st, RenderedField.textInput f dv false u.secure u.error)) := by
  refine ⟨?_, ?_, ?_, ?_⟩
  · intro hfind hnone
    unfold initializeMetadata
    dsimp only
    split
    · show (applySchemaMatch st schemas).requiredFields = none
      rw [applySchemaMatch_requiredFields_of_find st schemas s hfind, hnone]
    · rw [recordLoop_fst_requiredFields]
      show (applySchemaMatch st schemas).requiredFields = none
      rw [applySchemaMatch_requiredFields_of_find st schemas s hfind, hnone]
  · intro hreq hschema
    unfold hasInvalidFields
    rw [hreq, hschema]
    simp [hasInvalidFieldsLoop, reqIncludes]
  · intro hreq hf hv
    subst hv
    simp only [handleTextInputChange]
    rw [if_neg (by simpa using hf)]
    have ht : ("" : String).isEmpty = true := rfl
    rw [if_pos ht, handleDirtyState_requiredFields, hreq]
  · intro hreq hget hui hft
    unfold renderField
    rw [hget]
    dsimp only
    rw [hreq, hui]
    simp only [Option.getD_some, Option.isNone_some, Bool.false_eq_true,
      if_false]
    rcases hft with hft | hft <;>
      (rw [hft]; rw [if_pos (by decide)]; exact ⟨_, rfl⟩)

/-- Concrete instantiation of the amended C6 on `schC6`: `requiredFields`
ends up `undefined`, validation and the empty-text edit fault, and rendering
the field still works and reports it not required. -/
theorem C6_witness :
    (initializeMetadata { schemaName := "s", displayName := "n" }
        [schC6] []).requiredFields = none ∧
    hasInvalidFields
        { schemaName := "s", displayName := "n",
          schema := [("a", { uihints := some {} })] } = none ∧
    handleTextInputChange
        { schemaName := "s", displayName := "n",
          schema := [("a", { uihints := some {} })] } "a" "" = none ∧
    ∃ dv, renderField
        { schemaName := "s", displayName := "n",
          schema := [("a", { uihints := some {} })] } "a" =
      some ({ schemaName := "s", displayName := "n",
              schema := [("a", { uihints := some {} })] },
        RenderedField.textInput "a" dv false false false) :=
  ⟨(C6_amended_requiredFields { schemaName := "s", displayName := "n" }
      [schC6] [] schC6 "a" "" { uihints := some {} } {} []).1 (by decide) rfl,
   (C6_amended_requiredFields
      { schemaName := "s", displayName := "n",
        schema := [("a", { uihints := some {} })] }
      [] [] schC6 "a" "" { uihints := some {} } {} []).2.1 rfl rfl,
   (C6_amended_requiredFields
      { schemaName := "s", displayName := "n",
        schema := [("a", { uihints := some {} })] }
      [] [] schC6 "a" "" { uihints := some {} } {} []).2.2.1 rfl
      (by decide) rfl,
   (C6_amended_requiredFields
      { schemaName := "s", displayName := "n",
        schema := [("a", { uihints := some {} })] }
      [] [] schC6 "a" "" { uihints := some {} } {} []).2.2.2 rfl
      (by decide) rfl (Or.inl rfl)⟩

/-! ### C7: tags initialization and aggregation -/

theorem addNewTags_sub (acc ts : List String) : acc ⊆ addNewTags acc ts := by
  induction ts generalizing acc with
  | nil => exact fun x hx => hx
  | cons t ts ih =>
    simp only [addNewTags]
    split
    · exact ih acc
    · exact fun x hx => ih (acc ++ [t]) (List.mem_append_left _ hx)

theorem addNewTags_mem (acc ts : List String) :
    ∀ t ∈ ts, t ∈ addNewTags acc ts := by
  induction ts generalizing acc with
  | nil => intro t ht; cases ht
  | cons t0 ts ih =>
    intro t ht
    simp only [addNewTags]
    rcases List.mem_cons.mp ht with rfl | ht'
    · split
      · next hc =>
        exact addNewTags_sub _ _ (by simpa [List.contains, List.elem_iff] using hc)
      · exact addNewTags_sub _ _ (List.mem_append_right _ (by simp))
    · split
      · exact ih _ _ ht'
      · exact ih _ _ ht'

theorem addNewTags_nodup (acc ts : List String) (h : acc.Nodup) :
    (addNewTags acc ts).Nodup := by
  induction ts generalizing acc with
  | nil => exact h
  | cons t ts ih =>
    simp only [addNewTags]
    split
    · exact ih _ h
    · next hc =>
      refine ih _ ?_
      have ht : t ∉ acc := fun hm =>
        hc (by simpa [List.contains, List.elem_iff] using hm)
      simp [List.nodup_append, h, ht]

theorem tagsInitialized_tags (r : MetadataRecord) :
    (jsGet (tagsInitialized r).metadata "tags").truthy = true ∨
    jsGet (tagsInitialized r).metadata "tags" = Value.arr [] := by
  unfold tagsInitialized
  split
  · next h => exact Or.inl h
  · exact Or.inr (jsGet_jsSet_self _ _ _)

theorem recordVisit_allTags (nm : String) (i : Nat) (st : EditorState)
    (r : MetadataRecord) :
    (recordVisit nm i st r).allTags =
      if (jsGet r.metadata "tags").truthy then
        addNewTags st.allTags (jsGet r.metadata "tags").iterStrings
      else st.allTags := by
  unfold recordVisit
  dsimp only
  split <;> split <;> rfl

theorem recordLoop_fst_allTags_sub (nm : String) (st : EditorState) (i : Nat)
    (rs : List MetadataRecord) :
    st.allTags ⊆ (recordLoop nm st i rs).1.allTags := by
  induction rs generalizing st i with
  | nil => exact fun x hx => hx
  | cons r rest ih =>
    intro x hx
    show x ∈ (recordLoop nm (recordVisit nm i st r) (i + 1) rest).1.allTags
    refine ih _ _ ?_
    rw [recordVisit_allTags]
    split
    · exact addNewTags_sub _ _ hx
    · exact hx

theorem recordLoop_snd_mem (nm : String) (st : EditorState) (i : Nat)
    (rs : List MetadataRecord) (r' : MetadataRecord) :
    r' ∈ (recordLoop nm st i rs).2 → ∃ r ∈ rs, r' = tagsInitialized r := by
  induction rs generalizing st i with
  | nil => intro h; cases h
  | cons r rest ih =>
    intro h
    have h' : r' ∈ tagsInitialized r ::
        (recordLoop nm (recordVisit nm i st r) (i + 1) rest).2 := h
    rcases List.mem_cons.mp h' with h1 | h2
    · exact ⟨r, List.mem_cons_self _ _, h1⟩
    · obtain ⟨r0, hr0, he⟩ := ih _ _ h2
      exact ⟨r0, List.mem_cons_of_mem _ hr0, he⟩

theorem recordLoop_tags_mem (nm : String) (st : EditorState) (i : Nat)
    (rs : List MetadataRecord) (r : MetadataRecord) (t : String) :
    r ∈ rs → (jsGet r.metadata "tags").truthy = true →
    t ∈ (jsGet r.metadata "tags").iterStrings →
    t ∈ (recordLoop nm st i rs).1.allTags := by
  induction rs generalizing st i with
  | nil => intro hr; cases hr
  | cons r0 rest ih =>
    intro hr htruthy ht
    rcases List.mem_cons.mp hr with rfl | hr'
    · show t ∈ (recordLoop nm (recordVisit nm i st r) (i + 1) rest).1.allTags
      refine recordLoop_fst_allTags_sub _ _ _ _ ?_
      rw [recordVisit_allTags, if_pos htruthy]
      exact addNewTags_mem _ _ _ ht
    · exact ih _ _ hr' htruthy ht

theorem recordLoop_allTags_nodup (nm : String) (st : EditorState) (i : Nat)
    (rs : List MetadataRecord) :
    st.allTags.Nodup → (recordLoop nm st i rs).1.allTags.Nodup := by
  induction rs generalizing st i with
  | nil => exact fun h => h
  | cons r rest ih =>
    intro h
    show (recordLoop nm (recordVisit nm i st r) (i + 1) rest).1.allTags.Nodup
    refine ih _ _ ?_
    rw [recordVisit_allTags]
    split
    · exact addNewTags_nodup _ _ h
    · exact h

theorem applySchemaMatch_name (st : EditorState)
    (schemas : List FetchedSchema) :
    (applySchemaMatch st schemas).name = st.name := by
  unfold applySchemaMatch
  cases hf : schemas.find? (fun s => s.name == st.schemaName) with
  | none => rfl
  | some s =>
    dsimp only
    split <;> rfl

theorem applySchemaMatch_allTags (st : EditorState)
    (schemas : List FetchedSchema) :
    (applySchemaMatch st schemas).allTags = st.allTags := by
  unfold applySchemaMatch
  cases hf : schemas.find? (fun s => s.name == st.schemaName) with
  | none => rfl
  | some s =>
    dsimp only
    split <;> rfl

/-- The records of the C7 counterexample: one with a tag, one without a
`tags` field at all. -/
def recC7a : MetadataRecord :=
  { name := "r1", display_name := "R1",
    metadata := [("tags", Value.arr ["a"])] }

/-- See `recC7a`. -/
def recC7b : MetadataRecord :=
  { name := "r2", display_name := "R2", metadata := [] }

/-- C7 counterexample: when the editor is opened for a NEW record (no name),
initialization leaves the fetched records untouched: the tag `"a"` is not
aggregated into the tag pool, and the record lacking a `tags` field does not
get one initialized — contrary to the claim, which asserts this happens
whether the editor is opened for a new or an existing record. -/
theorem C7_counterexample :
    (initializeMetadata { schemaName := "s" } [] [recC7a, recC7b]).allTags =
      [] ∧
    jsHasKey (((initializeMetadata { schemaName := "s" } []
        [recC7a, recC7b]).allMetadata.getD 1 recC7a).metadata) "tags" =
      false := by
  decide

/-- C7, amended: only when the editor is opened for an EXISTING record
(truthy name) does initialization process the fetched records: then every
record ends with a truthy `tags` value or one initialized to the empty
array, every tag of every truthy-tagged record is in the tag pool, and the
pool stays duplicate-free. When the name is falsy the fetched records are
stored untouched and the tag pool is unchanged. -/
theorem C7_amended_initializeMetadata (st : EditorState)
    (schemas : List FetchedSchema) (recs : List MetadataRecord)
    (nm : String) :
    (st.name = some nm → nm ≠ "" →
      (∀ r' ∈ (initializeMetadata st schemas recs).allMetadata,
        (jsGet r'.metadata "tags").truthy = true ∨
        jsGet r'.metadata "tags" = Value.arr []) ∧
      (∀ r ∈ recs, (jsGet r.metadata "tags").truthy = true →
        ∀ t ∈ (jsGet r.metadata "tags").iterStrings,
          t ∈ (initializeMetadata st schemas recs).allTags) ∧
      (st.allTags.Nodup →
        (initializeMetadata st schemas recs).allTags.Nodup)) ∧
    (jsNameFalsy st.name = true →
      (initializeMetadata st schemas recs).allMetadata = recs ∧
      (initializeMetadata st schemas recs).allTags = st.allTags) := by
  constructor
  · intro hnm hne
    have hfalse : jsNameFalsy (applySchemaMatch st schemas).name = false := by
      rw [applySchemaMatch_name, hnm]
      show nm.isEmpty = false
      rw [Bool.eq_false_iff]
      simpa [String.isEmpty_iff] using hne
    unfold initializeMetadata
    dsimp only
    rw [if_neg (by simp [hfalse])]
    refine ⟨?_, ?_, ?_⟩
    · intro r' hr'
      obtain ⟨r, hr, rfl⟩ := recordLoop_snd_mem _ _ _ _ _ hr'
      exact tagsInitialized_tags r
    · intro r hr htruthy t ht
      exact recordLoop_tags_mem _ _ _ _ _ _ hr htruthy ht
    · intro hnodup
      refine recordLoop_allTags_nodup _ _ _ _ ?_
      show (applySchemaMatch st schemas).allTags.Nodup
      rw [applySchemaMatch_allTags]
      exact hnodup
  · intro hfalsy
    have hfalsy' : jsNameFalsy (applySchemaMatch st schemas).name = true := by
      rw [applySchemaMatch_name]
      exact hfalsy
    unfold initializeMetadata
    dsimp only
    rw [if_pos hfalsy']
    exact ⟨rfl, applySchemaMatch_allTags st schemas⟩

/-- Concrete instantiation of the amended C7: opening the editor on the
existing record `"r1"` aggregates the tag `"a"` into a duplicate-free pool
and every stored record ends with a usable `tags` value; opening it on a new
record stores the fetched records untouched. -/
theorem C7_witness :
    ("a" ∈ (initializeMetadata { schemaName := "s", name := some "r1" }
        [] [recC7a, recC7b]).allTags) ∧
    (initializeMetadata { schemaName := "s", name := some "r1" }
        [] [recC7a, recC7b]).allTags.Nodup ∧
    ((jsGet (tagsInitialized recC7b).metadata "tags").truthy = true ∨
      jsGet (tagsInitialized recC7b).metadata "tags" = Value.arr []) ∧
    (initializeMetadata { schemaName := "s" } [] [recC7a]).allMetadata =
      [recC7a] :=
  ⟨((C7_amended_initializeMetadata
      { schemaName := "s", name := some "r1" } [] [recC7a, recC7b]
      "r1").1 rfl (by decide)).2.1 recC7a (by decide) (by decide)
      "a" (by decide),
   ((C7_amended_initializeMetadata
      { schemaName := "s", name := some "r1" } [] [recC7a, recC7b]
      "r1").1 rfl (by decide)).2.2 (by decide),
   ((C7_amended_initializeMetadata
      { schemaName := "s", name := some "r1" } [] [recC7a, recC7b]
      "r1").1 rfl (by decide)).1 (tagsInitialized recC7b) (by decide),
   ((C7_amended_initializeMetadata
      { schemaName := "s" } [] [recC7a] "x").2 rfl).1⟩

end MetadataEditor
